import Mathlib

/-!
Shallow embedding of the lelet scheduler core (Rust) in Lean 4.

Sources embedded here:
- src/src/executor/task.rs        (TaskTag)
- src/src/executor/processor.rs   (Processor::run / run_task! / sleep / pop, wake_up)
- src/src/thread_pool.rs and src/lelet/src/thread_pool.rs (cached thread pool)
- src/lelet-utils/src/lib.rs      (Yields future, SimpleLock)

Machine integers (Rust usize) are modelled as Nat; usize::MAX is the
constant USIZE_MAX below.  Atomic cells read by a single sequential
routine are modelled by explicit state passing; values that other
threads may change between two loads of the same atomic are supplied
as separate oracle parameters (one per load).
-/

/-- usize::MAX on a 64-bit target. -/
def USIZE_MAX : Nat := 2 ^ 64 - 1

/-! ## TaskTag (src/src/executor/task.rs) -/

/-- TaskTag: per-task metadata.  The tracing-only id field is compiled
out without the tracing feature; the only state is the atomic
schedule_index_hint. -/
structure TaskTag where
  schedule_index_hint : Nat
deriving DecidableEq, Repr

/-- TaskTag::new: the hint starts at usize::MAX (unknown). -/
def TaskTag.new : TaskTag :=
  { schedule_index_hint := USIZE_MAX }

/-- TaskTag::get_schedule_index_hint: relaxed atomic load. -/
def TaskTag.get_schedule_index_hint (t : TaskTag) : Nat :=
  t.schedule_index_hint

/-- TaskTag::set_schedule_index_hint: load first and store only when the
value differs (cache-line optimization in the source). -/
def TaskTag.set_schedule_index_hint (t : TaskTag) (index : Nat) : TaskTag :=
  if t.schedule_index_hint ≠ index then { t with schedule_index_hint := index } else t

/-- The spec describes the observable behavior of
set_schedule_index_hint as an unconditional atomic store; this second
definition follows the spec wording, for the refinement claim. -/
def TaskTag.set_schedule_index_hint_spec (t : TaskTag) (index : Nat) : TaskTag :=
  { t with schedule_index_hint := index }

/-! ## Yields future (src/lelet-utils/src/lib.rs) -/

/-- Poll result of a future, as in std::task::Poll. -/
inductive Poll (α : Type)
  | Ready (a : α)
  | Pending
deriving DecidableEq, Repr

/-- Result of one Yields::poll call: the poll outcome, the counter
value after the call, and whether cx.waker().wake_by_ref() ran. -/
structure YieldsPollResult where
  result : Poll Unit
  state : Nat
  woke : Bool
deriving DecidableEq, Repr

/-- Yields::poll: if the counter is 0 return Ready, otherwise decrement
the counter, wake the waker and return Pending. -/
def Yields.poll (n : Nat) : YieldsPollResult :=
  if n = 0 then { result := Poll.Ready (), state := 0, woke := false }
  else { result := Poll.Pending, state := n - 1, woke := true }

/-- Counter state of Yields(n) after k polls. -/
def Yields.stateAfter (n : Nat) : Nat → Nat
  | 0 => n
  | k + 1 => (Yields.poll (Yields.stateAfter n k)).state

/-! ## SimpleLock (src/lelet-utils/src/lib.rs)

The lock world tracks the locked flag together with the number of live
guards, so that aliasing claims about guards can be stated. -/

structure LockWorld where
  locked : Bool
  liveGuards : Nat
deriving DecidableEq, Repr

/-- Initial state of a SimpleLock::new world: unlocked, no guard. -/
def lockInit : LockWorld :=
  { locked := false, liveGuards := 0 }

/-- SimpleLock::try_lock: swap(true, Acquire); the old value decides
whether a guard is produced.  Returns the guard option and the new
world. -/
def SimpleLock.try_lock (w : LockWorld) : Option Unit × LockWorld :=
  if w.locked then (none, w)
  else (some (), { locked := true, liveGuards := w.liveGuards + 1 })

/-- SimpleLock::is_locked: relaxed load of the flag. -/
def SimpleLock.is_locked (w : LockWorld) : Bool :=
  w.locked

/-- SimpleLockGuard::drop: store(false, Release) and the guard dies. -/
def SimpleLockGuard.drop (w : LockWorld) : LockWorld :=
  { locked := false, liveGuards := w.liveGuards - 1 }

/-- Events a client can perform on a SimpleLock.  A dropGuard event can
only happen while a guard is live; it is a no-op otherwise (no guard
exists to drop). -/
inductive LockOp
  | tryLock
  | dropGuard
deriving DecidableEq, Repr

/-- One client event applied to the lock world. -/
def lockStep (w : LockWorld) : LockOp → LockWorld
  | LockOp.tryLock => (SimpleLock.try_lock w).2
  | LockOp.dropGuard => if 0 < w.liveGuards then SimpleLockGuard.drop w else w

/-- A sequence of client events applied to the lock world. -/
def lockRun (w : LockWorld) (ops : List LockOp) : LockWorld :=
  List.foldl lockStep w ops

/-- The lock invariant: at most one guard is live, and is_locked is
true whenever a guard is live. -/
def LockInv (w : LockWorld) : Prop :=
  w.liveGuards ≤ 1 ∧ (1 ≤ w.liveGuards → SimpleLock.is_locked w = true)

instance (w : LockWorld) : Decidable (LockInv w) :=
  inferInstanceAs (Decidable (_ ∧ _))

/-! ## Processor::pop (src/src/executor/processor.rs) -/

/-- Steal outcome of crossbeam's Injector::steal_batch_and_pop. -/
inductive Steal (α : Type)
  | Success (t : α)
  | Empty
  | Retry
deriving DecidableEq, Repr

/-- Processor::pop: repeat steal_batch_and_pop, filter out Retry, take
the first remaining outcome.  The argument is the finite prefix of
steal outcomes the loop consumes; the loop answers at the first
non-Retry outcome (some result), and none means every observed outcome
was Retry, in which case the source loop is still spinning. -/
def Processor.popLoop {α : Type} : List (Steal α) → Option (Option α)
  | [] => none
  | Steal.Retry :: rest => Processor.popLoop rest
  | Steal.Success t :: _ => some (some t)
  | Steal.Empty :: _ => some none

/-- First non-Retry element of a steal-outcome sequence. -/
def firstNonRetry {α : Type} : List (Steal α) → Option (Steal α)
  | [] => none
  | Steal.Retry :: rest => firstNonRetry rest
  | s :: _ => some s

/-- How a definitive steal outcome is surfaced by Processor::pop. -/
def stealResult {α : Type} : Steal α → Option α
  | Steal.Success t => some t
  | Steal.Empty => none
  | Steal.Retry => none

/-! ## Thread pool (src/lelet/src/thread_pool.rs, src/src/thread_pool.rs)

The pool owns both sides of a zero-capacity rendezvous channel, so the
channel can never be disconnected.  try_send on such a channel succeeds
exactly when an idle thread is already blocked in recv; the state below
tracks the number of such idle threads, the number of threads spawned
so far, and the jobs handed to worker threads, in order.  Jobs are
identified by Nat. -/

structure PoolState where
  idleThreads : Nat
  spawnedThreads : Nat
  delivered : List Nat
deriving DecidableEq, Repr

/-- Pool::put_job: try_send the job; on Ok an idle thread receives it;
on TrySendError::Full spawn a fresh thread running Pool::run and hand
the job over with a blocking send (the fresh thread's first recv
rendezvouses with it).  TrySendError::Disconnected is unreachable
because the pool holds both channel ends. -/
def Pool.put_job (s : PoolState) (job : Nat) : PoolState :=
  if 0 < s.idleThreads then
    { idleThreads := s.idleThreads - 1
      spawnedThreads := s.spawnedThreads
      delivered := s.delivered ++ [job] }
  else
    { idleThreads := 0
      spawnedThreads := s.spawnedThreads + 1
      delivered := s.delivered ++ [job] }

/-- spawn_box delegates to the global pool's put_job. -/
def spawn_box (s : PoolState) (job : Nat) : PoolState :=
  Pool.put_job s job

/-- IDLE_THRESHOLD in seconds (lelet/src/thread_pool.rs: 5 minutes). -/
def IDLE_THRESHOLD : Nat := 300

/-- Exit-coordination state of the pool: next_exit is the earliest time
(in whole seconds since the pool's base instant) at which the next
thread may exit; exited counts threads that have exited. -/
structure ExitState where
  next_exit : Nat
  exited : Nat
deriving DecidableEq, Repr

/-- The recv_timeout-Timeout branch of Pool::run, with a winning
compare_and_swap linearized: at time now (seconds since base) a thread
that timed out exits iff now has reached next_exit, in which case it
installs now + IDLE_THRESHOLD as the new next_exit.  A thread whose CAS
fails (someone else just exited) goes back to waiting and does not
exit. -/
def Pool.tryExit (s : ExitState) (now : Nat) : ExitState × Bool :=
  if s.next_exit ≤ now then
    ({ next_exit := now + IDLE_THRESHOLD, exited := s.exited + 1 }, true)
  else (s, false)

/-- Fold of Pool.tryExit over a chronological list of timeout times. -/
def Pool.runExits (s : ExitState) : List Nat → ExitState
  | [] => s
  | t :: rest => Pool.runExits (Pool.tryExit s t).1 rest

/-- The times at which threads actually exit, when threads time out at
the given times, starting from next-exit bound ne. -/
def Pool.exitTimes (ne : Nat) : List Nat → List Nat
  | [] => []
  | t :: rest =>
      if ne ≤ t then t :: Pool.exitTimes (t + IDLE_THRESHOLD) rest
      else Pool.exitTimes ne rest

/-! ## Processor (src/src/executor/processor.rs)

run_task! is the macro in Processor::run.  machine_id is an atomic the
bound Machine reads twice per task (before and after task.run()); a new
Machine may overwrite it concurrently, so the two loads are the oracle
parameters midPre and midPost. -/

/-- Processor::still_on_machine: the machine_id field equals the
Machine's id. -/
def Processor.still_on_machine (machineIdField machineId : Nat) : Bool :=
  machineIdField == machineId

/-- Events of one run_task! expansion, in program order. -/
inductive RTEvent
  | checkPre
  | setHint (i : Nat)
  | taskRun
  | pushBack
  | checkPost
  | incCounter
  | exitRun
deriving DecidableEq, Repr

/-- Result of one run_task! expansion. -/
structure RunTaskResult where
  events : List RTEvent
  hint : Nat
  run_counter : Nat
  exited : Bool
deriving DecidableEq, Repr

/-- run_task! in Processor::run.  index is self.index, machineId is
machine.id, midPre and midPost are the machine_id values at the two
still_on_machine loads, hint0 the task tag's hint before, rc the
current run_counter.  If still on the machine: set the tag hint to
self.index, run the task; otherwise push the task back via system.push.
Then, if no longer on the machine, return from run (exited); otherwise
increment run_counter and continue the main loop. -/
def Processor.run_task (index machineId midPre midPost hint0 rc : Nat) : RunTaskResult :=
  if Processor.still_on_machine midPre machineId then
    let tag := TaskTag.set_schedule_index_hint { schedule_index_hint := hint0 } index
    if Processor.still_on_machine midPost machineId then
      { events := [RTEvent.checkPre, RTEvent.setHint index, RTEvent.taskRun,
                   RTEvent.checkPost, RTEvent.incCounter]
        hint := tag.schedule_index_hint
        run_counter := rc + 1
        exited := false }
    else
      { events := [RTEvent.checkPre, RTEvent.setHint index, RTEvent.taskRun,
                   RTEvent.checkPost, RTEvent.exitRun]
        hint := tag.schedule_index_hint
        run_counter := rc
        exited := true }
  else
    if Processor.still_on_machine midPost machineId then
      { events := [RTEvent.checkPre, RTEvent.pushBack, RTEvent.checkPost, RTEvent.incCounter]
        hint := hint0
        run_counter := rc + 1
        exited := false }
    else
      { events := [RTEvent.checkPre, RTEvent.pushBack, RTEvent.checkPost, RTEvent.exitRun]
        hint := hint0
        run_counter := rc
        exited := true }

/-! ## Processor::run main loop (src/src/executor/processor.rs)

For the fairness claim the Machine is assumed to keep the Processor
(still_on_machine stays true), so run_task! just increments run_counter
and continues the main loop.  Each loop iteration consumes one
environment record saying which queues would yield a task. -/

/-- Which queue operations of one main-loop iteration find a task.
injTask1 is system.pop at the forced get_tasks! (run_counter at
MAX_RUNS), injTask2 at the regular get_tasks! after the worker deque is
empty, injTask3 at the get_tasks! after sleep. -/
structure LoopEnv where
  injTask1 : Bool
  workerTask : Bool
  injTask2 : Bool
  stealTask : Bool
  injTask3 : Bool
deriving DecidableEq, Repr

/-- Observable events of the main loop.  flushNotif and sysPop together
are the body of get_tasks! (after it resets run_counter to 0):
flushing one wake notification with try_recv, then system.pop, which
inspects this Processor's injector. -/
inductive LoopEvent
  | flushNotif
  | sysPop
  | runInjectorTask
  | popLocal
  | runLocalTask
  | runStolenTask
  | sleepStep
deriving DecidableEq, Repr

/-- Number of runs in a row before the global queue is inspected. -/
def MAX_RUNS : Nat := 64

/-- One main-loop iteration: its event list and the run_counter at the
next iteration's start. -/
structure IterResult where
  events : List LoopEvent
  run_counter : Nat
deriving DecidableEq, Repr

/-- The part of an iteration from worker.pop() on (reached when the
forced get_tasks! did not run a task); pre holds the events already
emitted by the forced get_tasks!.  Follows the source order: worker.pop,
then get_tasks!, then system.steal, then sleep, then get_tasks!. -/
def Processor.iterTail (rc : Nat) (env : LoopEnv) (pre : List LoopEvent) : IterResult :=
  if env.workerTask then
    { events := pre ++ [LoopEvent.popLocal, LoopEvent.runLocalTask], run_counter := rc + 1 }
  else if env.injTask2 then
    { events := pre ++ [LoopEvent.popLocal, LoopEvent.flushNotif, LoopEvent.sysPop,
                        LoopEvent.runInjectorTask]
      run_counter := 1 }
  else if env.stealTask then
    { events := pre ++ [LoopEvent.popLocal, LoopEvent.flushNotif, LoopEvent.sysPop,
                        LoopEvent.runStolenTask]
      run_counter := 1 }
  else if env.injTask3 then
    { events := pre ++ [LoopEvent.popLocal, LoopEvent.flushNotif, LoopEvent.sysPop,
                        LoopEvent.sleepStep, LoopEvent.flushNotif, LoopEvent.sysPop,
                        LoopEvent.runInjectorTask]
      run_counter := 1 }
  else
    { events := pre ++ [LoopEvent.popLocal, LoopEvent.flushNotif, LoopEvent.sysPop,
                        LoopEvent.sleepStep, LoopEvent.flushNotif, LoopEvent.sysPop]
      run_counter := 0 }

/-- One iteration of the main loop starting with run_counter rc: when
rc has reached MAX_RUNS, get_tasks! runs first (resetting run_counter
to 0); a task found there is run (run_counter becomes 1) and the loop
continues; otherwise the iteration falls through to worker.pop(). -/
def Processor.iteration (rc : Nat) (env : LoopEnv) : IterResult :=
  if MAX_RUNS ≤ rc then
    if env.injTask1 then
      { events := [LoopEvent.flushNotif, LoopEvent.sysPop, LoopEvent.runInjectorTask]
        run_counter := 1 }
    else
      Processor.iterTail 0 env [LoopEvent.flushNotif, LoopEvent.sysPop]
  else
    Processor.iterTail rc env []

/-- Event trace of successive main-loop iterations. -/
def Processor.runTrace (rc : Nat) : List LoopEnv → List LoopEvent
  | [] => []
  | env :: rest =>
      let r := Processor.iteration rc env
      r.events ++ Processor.runTrace r.run_counter rest

/-- Number of local-deque task runs that happen strictly before the
first injector inspection (system.pop) in a trace. -/
def countLocalBeforeInspect : List LoopEvent → Nat
  | [] => 0
  | LoopEvent.sysPop :: _ => 0
  | LoopEvent.runLocalTask :: rest => countLocalBeforeInspect rest + 1
  | _ :: rest => countLocalBeforeInspect rest

/-- An environment where the worker deque always has a task and the
injector is never empty (P7's saturated scenario). -/
def saturatedEnv : LoopEnv :=
  { injTask1 := true, workerTask := true, injTask2 := true,
    stealTask := true, injTask3 := true }

/-! ## Processor::sleep (src/src/executor/processor.rs) -/

/-- Events of one Processor::sleep call, in program order. -/
inductive SleepEvent
  | storeLastSeen (v : Nat)
  | recvWake
  | sysmonWakeUp
  | backoffReset
  | snooze
deriving DecidableEq, Repr

/-- Processor::sleep: if the backoff is completed, store usize::MAX
into last_seen, block on the wake channel, store system.now() into
last_seen, wake sysmon and reset the backoff; otherwise just snooze.
now is the value system.now() returns after the wake signal arrives. -/
def Processor.sleep (backoffCompleted : Bool) (now : Nat) : List SleepEvent :=
  if backoffCompleted then
    [SleepEvent.storeLastSeen USIZE_MAX, SleepEvent.recvWake,
     SleepEvent.storeLastSeen now, SleepEvent.sysmonWakeUp, SleepEvent.backoffReset]
  else
    [SleepEvent.snooze]

/-- Effect of one sleep event on the last_seen cell. -/
def applyLastSeen (cur : Nat) : SleepEvent → Nat
  | SleepEvent.storeLastSeen v => v
  | _ => cur

/-- Successive values of last_seen along a sleep event list (the head
is the value before the first event). -/
def lastSeenTrace (init : Nat) (evs : List SleepEvent) : List Nat :=
  List.scanl applyLastSeen init evs

/-! ## Helper lemmas -/

/-- Setting the hint always leaves the stored value equal to the index,
whether or not the store was skipped. -/
theorem set_hint_get (t : TaskTag) (i : Nat) :
    (TaskTag.set_schedule_index_hint t i).schedule_index_hint = i := by
  by_cases h : t.schedule_index_hint = i <;> simp [TaskTag.set_schedule_index_hint, h]

/-- Yields counter after k polls is n - k (for k within the yield budget). -/
theorem Yields.stateAfter_eq (n : Nat) : ∀ k, k ≤ n → Yields.stateAfter n k = n - k := by
  intro k
  induction k with
  | zero => intro _; simp [Yields.stateAfter]
  | succ k ih =>
    intro h
    have hk : k ≤ n := Nat.le_of_succ_le h
    have hne : n - k ≠ 0 := Nat.sub_ne_zero_of_lt h
    simp [Yields.stateAfter, ih hk, Yields.poll, hne]
    omega

/-- One lock event preserves the lock invariant. -/
theorem lockInv_step (w : LockWorld) (op : LockOp) (h : LockInv w) : LockInv (lockStep w op) := by
  obtain ⟨h1, h2⟩ := h
  cases op with
  | tryLock =>
    by_cases hl : w.locked
    · have hid : lockStep w LockOp.tryLock = w := by
        simp [lockStep, SimpleLock.try_lock, hl]
      rw [hid]
      exact ⟨h1, h2⟩
    · have hg : w.liveGuards = 0 := by
        by_contra hne
        have := h2 (Nat.one_le_iff_ne_zero.mpr hne)
        simp [SimpleLock.is_locked, hl] at this
      simp [lockStep, SimpleLock.try_lock, hl, LockInv, SimpleLock.is_locked, hg]
  | dropGuard =>
    by_cases hg : 0 < w.liveGuards
    · simp only [lockStep, hg, if_pos, SimpleLockGuard.drop, LockInv, SimpleLock.is_locked]
      constructor
      · omega
      · intro hcontra
        omega
    · exact ⟨by simpa [lockStep, hg] using h1, fun hgg => by
        simpa [lockStep, hg, SimpleLock.is_locked] using h2 (by simpa [lockStep, hg] using hgg)⟩

/-- A sequence of lock events preserves the lock invariant. -/
theorem lockInv_run (w : LockWorld) (ops : List LockOp) (h : LockInv w) :
    LockInv (lockRun w ops) := by
  induction ops generalizing w with
  | nil => simpa [lockRun] using h
  | cons op rest ih =>
    simp only [lockRun, List.foldl_cons]
    exact ih _ (lockInv_step w op h)

/-- Processor::pop surfaces exactly the first non-Retry steal outcome. -/
theorem popLoop_eq_firstNonRetry {α : Type} (outs : List (Steal α)) :
    Processor.popLoop outs = Option.map stealResult (firstNonRetry outs) := by
  induction outs with
  | nil => rfl
  | cons s rest ih =>
    cases s <;> simp [Processor.popLoop, firstNonRetry, stealResult, ih]

/-- The first non-Retry outcome is never Retry. -/
theorem firstNonRetry_not_retry {α : Type} (outs : List (Steal α)) :
    firstNonRetry outs ≠ some Steal.Retry := by
  induction outs with
  | nil => simp [firstNonRetry]
  | cons s rest ih => cases s <;> simp [firstNonRetry, ih]

/-- A sequence containing a non-Retry outcome has a first non-Retry
outcome. -/
theorem firstNonRetry_isSome {α : Type} (outs : List (Steal α))
    (h : ∃ s ∈ outs, s ≠ Steal.Retry) : (firstNonRetry outs).isSome = true := by
  induction outs with
  | nil => simp at h
  | cons s rest ih =>
    cases s with
    | Retry =>
      simp only [firstNonRetry]
      apply ih
      obtain ⟨x, hx, hne⟩ := h
      rcases List.mem_cons.mp hx with rfl | hmem
      · exact absurd rfl hne
      · exact ⟨x, hmem, hne⟩
    | Success t => simp [firstNonRetry]
    | Empty => simp [firstNonRetry]

/-! ## Claim theorems -/

/-- C7: TaskTag::set_schedule_index_hint, which stores only when a
prior load shows a different value, is observationally equivalent to an
unconditional atomic store: for every tag and index i, the conditional
set produces exactly the state the unconditional store would, and a
subsequent get_schedule_index_hint returns i.  The tag has no other
state. -/
theorem C7_set_hint_refines_store (t : TaskTag) (i : Nat) :
    t.set_schedule_index_hint i = t.set_schedule_index_hint_spec i ∧
    (t.set_schedule_index_hint i).get_schedule_index_hint = i := by
  obtain ⟨h0⟩ := t
  by_cases h : h0 = i <;>
    simp [TaskTag.set_schedule_index_hint, TaskTag.set_schedule_index_hint_spec,
          TaskTag.get_schedule_index_hint, h]

/-- C9: polling Yields(n) returns Pending, decrements the counter to
n - (k+1) and wakes the waker on each poll k < n, and returns Ready ()
on poll number n+1 (the poll after the first n). -/
theorem C9_yields_polls (n k : Nat) (hk : k < n) :
    (Yields.poll (Yields.stateAfter n k)).result = Poll.Pending ∧
    (Yields.poll (Yields.stateAfter n k)).state = n - (k + 1) ∧
    (Yields.poll (Yields.stateAfter n k)).woke = true ∧
    (Yields.poll (Yields.stateAfter n n)).result = Poll.Ready () := by
  have h1 : Yields.stateAfter n k = n - k := Yields.stateAfter_eq n k (Nat.le_of_lt hk)
  have h2 : Yields.stateAfter n n = 0 := by
    simpa using Yields.stateAfter_eq n n (Nat.le_refl n)
  have hne : n - k ≠ 0 := Nat.sub_ne_zero_of_lt hk
  refine ⟨?_, ?_, ?_, ?_⟩ <;> simp [h1, h2, Yields.poll, hne]
  omega

/-- Witness for C9 at n = 5: the sixth poll returns Ready. -/
theorem C9_yields_polls_witness :
    (Yields.poll (Yields.stateAfter 5 4)).result = Poll.Pending ∧
    (Yields.poll (Yields.stateAfter 5 4)).state = 5 - (4 + 1) ∧
    (Yields.poll (Yields.stateAfter 5 4)).woke = true ∧
    (Yields.poll (Yields.stateAfter 5 5)).result = Poll.Ready () :=
  C9_yields_polls 5 4 (by decide)

/-- C10: SimpleLock::try_lock returns a guard exactly when the lock was
unlocked at the call (atomically setting it locked), and None when
already locked; dropping the guard unlocks; consequently, in every
state reachable by try_lock and guard-drop events from a fresh lock, at
most one guard is live and is_locked is true whenever a guard is
live. -/
theorem C10_simple_lock (w : LockWorld) (ops : List LockOp) :
    ((SimpleLock.try_lock w).1.isSome = true ↔ w.locked = false) ∧
    ((SimpleLock.try_lock w).1.isSome = true → (SimpleLock.try_lock w).2.locked = true) ∧
    (SimpleLockGuard.drop w).locked = false ∧
    LockInv (lockRun lockInit ops) := by
  refine ⟨?_, ?_, rfl, lockInv_run lockInit ops (by decide)⟩ <;>
    by_cases hl : w.locked <;> simp [SimpleLock.try_lock, hl]

/-- Witness for C10 on a concrete event sequence. -/
theorem C10_simple_lock_witness :
    LockInv (lockRun lockInit [LockOp.tryLock, LockOp.tryLock, LockOp.dropGuard]) :=
  (C10_simple_lock lockInit [LockOp.tryLock, LockOp.tryLock, LockOp.dropGuard]).2.2.2

/-- C8: Processor::pop repeatedly calls steal_batch_and_pop, skipping
every Retry outcome; given that some outcome is definitive, it answers:
Some(task) exactly when the first definitive outcome is Success, and
None exactly when the first definitive outcome is Empty — a transient
Retry is never surfaced as emptiness. -/
theorem C8_pop_retries {α : Type} (outs : List (Steal α)) (t : α)
    (h : ∃ s ∈ outs, s ≠ Steal.Retry) :
    (Processor.popLoop outs).isSome = true ∧
    (Processor.popLoop outs = some (some t) ↔ firstNonRetry outs = some (Steal.Success t)) ∧
    (Processor.popLoop outs = some none ↔ firstNonRetry outs = some Steal.Empty) := by
  have heq := popLoop_eq_firstNonRetry outs
  have hns := firstNonRetry_isSome outs h
  have hnr := firstNonRetry_not_retry outs
  cases hfe : firstNonRetry outs with
  | none => rw [hfe] at hns; simp at hns
  | some s =>
    cases s with
    | Success u => simp [heq, hfe, stealResult]
    | Empty => simp [heq, hfe, stealResult]
    | Retry => exact absurd hfe hnr

/-- Witness for C8 on a concrete outcome sequence with a transient
Retry before a Success. -/
theorem C8_pop_retries_witness :
    (Processor.popLoop [Steal.Retry, Steal.Success 7]).isSome = true ∧
    (Processor.popLoop [Steal.Retry, Steal.Success 7] = some (some 7) ↔
      firstNonRetry [Steal.Retry, Steal.Success 7] = some (Steal.Success 7)) ∧
    (Processor.popLoop [Steal.Retry, Steal.Success 7] = some none ↔
      firstNonRetry [Steal.Retry, Steal.Success 7] = some Steal.Empty) :=
  C8_pop_retries [Steal.Retry, Steal.Success 7] 7 (by decide)

/-- C2: every job passed to the thread pool's put_job (spawn_box) is
handed to some worker thread: when an idle thread is waiting, try_send
transfers the job to it; otherwise a new thread is spawned and the
blocking send transfers the job to it.  No job is ever discarded and
the call always returns. -/
theorem C2_put_job_delivers (s : PoolState) (job : Nat) :
    (Pool.put_job s job).delivered = s.delivered ++ [job] ∧
    job ∈ (Pool.put_job s job).delivered ∧
    (s.idleThreads = 0 → (Pool.put_job s job).spawnedThreads = s.spawnedThreads + 1) ∧
    (0 < s.idleThreads → (Pool.put_job s job).spawnedThreads = s.spawnedThreads ∧
      (Pool.put_job s job).idleThreads = s.idleThreads - 1) ∧
    spawn_box s job = Pool.put_job s job := by
  by_cases h : 0 < s.idleThreads
  · simp [Pool.put_job, spawn_box, h]
    omega
  · simp [Pool.put_job, spawn_box, h]

/-- Witness for C2: a job submitted to a pool with no idle thread is
delivered and a new thread is spawned for it. -/
theorem C2_put_job_delivers_witness :
    (Pool.put_job { idleThreads := 0, spawnedThreads := 0, delivered := [] } 3).delivered = [3] ∧
    3 ∈ (Pool.put_job { idleThreads := 0, spawnedThreads := 0, delivered := [] } 3).delivered ∧
    (Pool.put_job { idleThreads := 0, spawnedThreads := 0, delivered := [] } 3).spawnedThreads = 1 := by
  obtain ⟨a, b, c, -, -⟩ :=
    C2_put_job_delivers { idleThreads := 0, spawnedThreads := 0, delivered := [] } 3
  exact ⟨a, b, c rfl⟩

/-- C1: in run_task!, when the pre-run still_on_machine check fails the
task is not run, it is pushed back via system.push, and run returns
(exited) without incrementing run_counter; when the pre-run check
passes but the post-run check fails, run likewise returns immediately
with run_counter not incremented.  The hypothesis hmono encodes
revocation permanence: Machine ids are unique and monotonically
increasing (spec section 3 and 9), so once machine_id differs from this
Machine's id it can never equal it again. -/
theorem C1_revoked_task_pushed_back (index machineId midPre midPost hint0 rc : Nat)
    (hmono : midPre ≠ machineId → midPost ≠ machineId) :
    (midPre ≠ machineId →
      (Processor.run_task index machineId midPre midPost hint0 rc).exited = true ∧
      RTEvent.pushBack ∈ (Processor.run_task index machineId midPre midPost hint0 rc).events ∧
      RTEvent.taskRun ∉ (Processor.run_task index machineId midPre midPost hint0 rc).events ∧
      (Processor.run_task index machineId midPre midPost hint0 rc).run_counter = rc) ∧
    (midPre = machineId → midPost ≠ machineId →
      (Processor.run_task index machineId midPre midPost hint0 rc).exited = true ∧
      (Processor.run_task index machineId midPre midPost hint0 rc).run_counter = rc) := by
  constructor
  · intro hpre
    have hpost := hmono hpre
    simp [Processor.run_task, Processor.still_on_machine, hpre, hpost]
  · intro hpre hpost
    simp [Processor.run_task, Processor.still_on_machine, hpre, hpost]

/-- Witness for C1: a Machine with id 1 sees machine_id 2 at both
checks; the task is pushed back, not run, and run exits with the
counter unchanged. -/
theorem C1_revoked_task_pushed_back_witness :
    (Processor.run_task 0 1 2 2 9 5).exited = true ∧
    RTEvent.pushBack ∈ (Processor.run_task 0 1 2 2 9 5).events ∧
    RTEvent.taskRun ∉ (Processor.run_task 0 1 2 2 9 5).events ∧
    (Processor.run_task 0 1 2 2 9 5).run_counter = 5 :=
  (C1_revoked_task_pushed_back 0 1 2 2 9 5 (by decide)).1 (by decide)

/-- C4: when the pre-run still_on_machine check passes, run_task!
writes self.index into the task's schedule_index_hint immediately
before calling task.run(); the tag's hint afterwards is exactly index,
and it keeps that value until the next poll (on a Processor k2) writes
k2. -/
theorem C4_hint_written_before_run (index machineId midPost hint0 rc k2 m2 p2 rc2 : Nat) :
    (Processor.run_task index machineId machineId midPost hint0 rc).events.take 3 =
      [RTEvent.checkPre, RTEvent.setHint index, RTEvent.taskRun] ∧
    (Processor.run_task index machineId machineId midPost hint0 rc).hint = index ∧
    (Processor.run_task k2 m2 m2 p2
      (Processor.run_task index machineId machineId midPost hint0 rc).hint rc2).hint = k2 := by
  by_cases hp : Processor.still_on_machine midPost machineId = true <;>
  by_cases hq : Processor.still_on_machine p2 m2 = true <;>
    simp [Processor.run_task, Processor.still_on_machine, hp, hq, set_hint_get] at * <;>
    simp [Processor.run_task, Processor.still_on_machine, hp, hq, set_hint_get]

/-- C5: Processor::sleep with an uncompleted backoff only snoozes and
leaves last_seen untouched; with a completed backoff it stores
usize::MAX into last_seen, parks on the wake channel, stores
system.now(), wakes sysmon and resets the backoff, in that order; so
last_seen equals usize::MAX exactly from just before parking until just
after the wake signal is received. -/
theorem C5_sleep_order (init now : Nat) (h1 : init ≠ USIZE_MAX) (h2 : now ≠ USIZE_MAX) :
    Processor.sleep false now = [SleepEvent.snooze] ∧
    lastSeenTrace init (Processor.sleep false now) = [init, init] ∧
    Processor.sleep true now =
      [SleepEvent.storeLastSeen USIZE_MAX, SleepEvent.recvWake,
       SleepEvent.storeLastSeen now, SleepEvent.sysmonWakeUp, SleepEvent.backoffReset] ∧
    lastSeenTrace init (Processor.sleep true now) =
      [init, USIZE_MAX, USIZE_MAX, now, now, now] ∧
    (lastSeenTrace init (Processor.sleep true now)).count USIZE_MAX = 2 := by
  refine ⟨rfl, rfl, rfl, rfl, ?_⟩
  simp [lastSeenTrace, Processor.sleep, List.scanl, applyLastSeen, List.count_cons,
        List.count_nil, h1, h2, Ne.symm h1, Ne.symm h2]

/-- Witness for C5 with last_seen 0 before sleep and tick 7 after the
wake signal. -/
theorem C5_sleep_order_witness :
    Processor.sleep false 7 = [SleepEvent.snooze] ∧
    lastSeenTrace 0 (Processor.sleep false 7) = [0, 0] ∧
    Processor.sleep true 7 =
      [SleepEvent.storeLastSeen USIZE_MAX, SleepEvent.recvWake,
       SleepEvent.storeLastSeen 7, SleepEvent.sysmonWakeUp, SleepEvent.backoffReset] ∧
    lastSeenTrace 0 (Processor.sleep true 7) =
      [0, USIZE_MAX, USIZE_MAX, 7, 7, 7] ∧
    (lastSeenTrace 0 (Processor.sleep true 7)).count USIZE_MAX = 2 :=
  C5_sleep_order 0 7 (by decide) (by decide)

/-- In any run of the main loop starting with run_counter rc at most
MAX_RUNS, at most MAX_RUNS - rc local-deque tasks are run before the
injector is inspected. -/
theorem countLocal_runTrace_le (envs : List LoopEnv) :
    ∀ rc, rc ≤ MAX_RUNS →
      countLocalBeforeInspect (Processor.runTrace rc envs) + rc ≤ MAX_RUNS := by
  induction envs with
  | nil =>
    intro rc h
    simpa [Processor.runTrace, countLocalBeforeInspect] using h
  | cons env rest ih =>
    intro rc h
    by_cases hrc : MAX_RUNS ≤ rc
    · by_cases hi : env.injTask1 <;>
        by_cases hw : env.workerTask <;>
        by_cases h2 : env.injTask2 <;>
        by_cases h3 : env.stealTask <;>
        by_cases h4 : env.injTask3 <;>
        simp [Processor.runTrace, Processor.iteration, hrc, hi, hw, h2, h3, h4,
              Processor.iterTail, countLocalBeforeInspect] <;>
        omega
    · by_cases hw : env.workerTask
      · have hih := ih (rc + 1) (by omega)
        simp only [Processor.runTrace, Processor.iteration, hrc, if_neg,
                   Processor.iterTail, hw, if_pos, List.nil_append]
        simp [countLocalBeforeInspect]
        omega
      · by_cases h2 : env.injTask2 <;> by_cases h3 : env.stealTask <;>
        by_cases h4 : env.injTask3 <;>
          simp [Processor.runTrace, Processor.iteration, hrc, Processor.iterTail, hw, h2, h3, h4,
                countLocalBeforeInspect] <;>
          omega

/-- C3: when run_counter has reached MAX_RUNS, the iteration starts
with get_tasks! — flushing one wake notification, then system.pop on
the Processor's injector — before worker.pop is attempted, and
continues the iteration with run_counter reset to 0 (the counter after
the iteration is at most 1, the possible injector task just run);
consequently at most MAX_RUNS - rc0 local tasks run before the injector
is inspected, and with a saturated worker deque and non-empty injector
an injector task is run within MAX_RUNS + 1 iterations of the loop. -/
theorem C3_injector_fairness (rc rc0 : Nat) (env : LoopEnv) (envs : List LoopEnv)
    (hforced : MAX_RUNS ≤ rc) (h0 : rc0 ≤ MAX_RUNS) :
    (Processor.iteration rc env).events.take 2 = [LoopEvent.flushNotif, LoopEvent.sysPop] ∧
    (Processor.iteration rc env).run_counter ≤ 1 ∧
    (env.injTask1 = false →
      Processor.iteration rc env =
        Processor.iterTail 0 env [LoopEvent.flushNotif, LoopEvent.sysPop]) ∧
    countLocalBeforeInspect (Processor.runTrace rc0 envs) ≤ MAX_RUNS - rc0 ∧
    LoopEvent.runInjectorTask ∈
      Processor.runTrace 0 (List.replicate (MAX_RUNS + 1) saturatedEnv) := by
  refine ⟨?_, ?_, ?_, ?_, ?_⟩
  · by_cases hi : env.injTask1 <;>
      by_cases hw : env.workerTask <;>
      by_cases h2 : env.injTask2 <;>
      by_cases h3 : env.stealTask <;>
      by_cases h4 : env.injTask3 <;>
      simp [Processor.iteration, hforced, Processor.iterTail, hi, hw, h2, h3, h4]
  · by_cases hi : env.injTask1 <;>
      by_cases hw : env.workerTask <;>
      by_cases h2 : env.injTask2 <;>
      by_cases h3 : env.stealTask <;>
      by_cases h4 : env.injTask3 <;>
      simp [Processor.iteration, hforced, Processor.iterTail, hi, hw, h2, h3, h4]
  · intro hi
    simp [Processor.iteration, hforced, hi]
  · have := countLocal_runTrace_le envs rc0 h0
    omega
  · decide

/-- Witness for C3 at run_counter MAX_RUNS in the saturated
environment. -/
theorem C3_injector_fairness_witness :
    (Processor.iteration MAX_RUNS saturatedEnv).events.take 2 =
      [LoopEvent.flushNotif, LoopEvent.sysPop] ∧
    (Processor.iteration MAX_RUNS saturatedEnv).run_counter ≤ 1 ∧
    countLocalBeforeInspect (Processor.runTrace 0 []) ≤ MAX_RUNS - 0 ∧
    LoopEvent.runInjectorTask ∈
      Processor.runTrace 0 (List.replicate (MAX_RUNS + 1) saturatedEnv) := by
  obtain ⟨a, b, -, d, e⟩ :=
    C3_injector_fairness MAX_RUNS 0 saturatedEnv [] (Nat.le_refl _) (by decide)
  exact ⟨a, b, d, e⟩

/-- Every actual exit time is at least the next-exit bound it started
from. -/
theorem exitTimes_lower (ts : List Nat) :
    ∀ ne, ∀ u ∈ Pool.exitTimes ne ts, ne ≤ u := by
  induction ts with
  | nil =>
    intro ne u hu
    simp [Pool.exitTimes] at hu
  | cons t rest ih =>
    intro ne u hu
    by_cases h : ne ≤ t
    · simp [Pool.exitTimes, h] at hu
      rcases hu with rfl | hu
      · exact h
      · exact Nat.le_trans (by omega) (ih (t + IDLE_THRESHOLD) u hu)
    · simp [Pool.exitTimes, h] at hu
      exact ih ne u hu

/-- Consecutive actual exits are separated by at least one idle
window. -/
theorem exitTimes_pairwise (ts : List Nat) :
    ∀ ne, List.Pairwise (fun a b => a + IDLE_THRESHOLD ≤ b) (Pool.exitTimes ne ts) := by
  induction ts with
  | nil => intro ne; simp [Pool.exitTimes]
  | cons t rest ih =>
    intro ne
    by_cases h : ne ≤ t
    · simp only [Pool.exitTimes, h, if_pos, List.pairwise_cons]
      exact ⟨fun u hu => exitTimes_lower rest (t + IDLE_THRESHOLD) u hu, ih (t + IDLE_THRESHOLD)⟩
    · simp only [Pool.exitTimes, h, if_neg, ite_false]
      exact ih ne

/-- Actual exit times are among the timeout times. -/
theorem exitTimes_subset (ts : List Nat) :
    ∀ ne, ∀ u ∈ Pool.exitTimes ne ts, u ∈ ts := by
  induction ts with
  | nil =>
    intro ne u hu
    simp [Pool.exitTimes] at hu
  | cons t rest ih =>
    intro ne u hu
    by_cases h : ne ≤ t
    · simp [Pool.exitTimes, h] at hu
      rcases hu with rfl | hu
      · exact List.mem_cons_self _ _
      · exact List.mem_cons_of_mem _ (ih _ u hu)
    · simp [Pool.exitTimes, h] at hu
      exact List.mem_cons_of_mem _ (ih ne u hu)

/-- Events spaced at least one idle window apart inside a window of
length d number fewer than d / IDLE_THRESHOLD + 1. -/
theorem spacedCount (us : List Nat) :
    ∀ lo hi, List.Pairwise (fun a b => a + IDLE_THRESHOLD ≤ b) us →
      (∀ u ∈ us, lo ≤ u ∧ u < hi) →
      us.length * IDLE_THRESHOLD < (hi - lo) + IDLE_THRESHOLD := by
  induction us with
  | nil =>
    intro lo hi _ _
    simp [IDLE_THRESHOLD]
  | cons u rest ih =>
    intro lo hi hp hin
    obtain ⟨hlo, hhi⟩ := hin u (List.mem_cons_self _ _)
    obtain ⟨hp1, hp2⟩ := List.pairwise_cons.mp hp
    have hin2 : ∀ x ∈ rest, u + IDLE_THRESHOLD ≤ x ∧ x < hi := fun x hx =>
      ⟨hp1 x hx, (hin x (List.mem_cons_of_mem _ hx)).2⟩
    have hih := ih (u + IDLE_THRESHOLD) hi hp2 hin2
    simp only [List.length_cons, IDLE_THRESHOLD] at hih ⊢
    omega

/-- Pool.runExits counts exactly the successful exit times. -/
theorem runExits_exited (ts : List Nat) :
    ∀ s : ExitState,
      (Pool.runExits s ts).exited = s.exited + (Pool.exitTimes s.next_exit ts).length := by
  induction ts with
  | nil => intro s; simp [Pool.runExits, Pool.exitTimes]
  | cons t rest ih =>
    intro s
    by_cases h : s.next_exit ≤ t
    · have hih := ih { next_exit := t + IDLE_THRESHOLD, exited := s.exited + 1 }
      dsimp only at hih
      simp only [Pool.runExits, Pool.tryExit, h, if_pos, Pool.exitTimes, List.length_cons]
      omega
    · simp only [Pool.runExits, Pool.tryExit, h, if_neg, ite_false, Pool.exitTimes]
      rw [ih]

/-- C6: a worker thread that times out exits only when the CAS on the
shared next_exit counter can move it forward — that is, when now has
reached next_exit — and the value it installs, now + IDLE_THRESHOLD,
forbids any further exit for one idle window; consecutive exits are
hence at least IDLE_THRESHOLD apart, and over any window of length d of
timeout events the number of threads that exit is at most
ceil(d / IDLE_THRESHOLD), i.e. (d + IDLE_THRESHOLD - 1) /
IDLE_THRESHOLD. -/
theorem C6_pool_exit_rate (ts : List Nat) (lo d : Nat) (s : ExitState) (now : Nat)
    (hin : ∀ t ∈ ts, lo ≤ t ∧ t < lo + d)
    (hexit : (Pool.tryExit s now).2 = true) :
    s.next_exit ≤ now ∧
    (Pool.tryExit s now).1.next_exit = now + IDLE_THRESHOLD ∧
    List.Pairwise (fun a b => a + IDLE_THRESHOLD ≤ b) (Pool.exitTimes s.next_exit ts) ∧
    (Pool.runExits s ts).exited ≤
      s.exited + (d + IDLE_THRESHOLD - 1) / IDLE_THRESHOLD := by
  have hle : s.next_exit ≤ now := by
    by_contra h
    simp [Pool.tryExit, h] at hexit
  refine ⟨hle, by simp [Pool.tryExit, hle], exitTimes_pairwise ts s.next_exit, ?_⟩
  have hmem : ∀ u ∈ Pool.exitTimes s.next_exit ts, lo ≤ u ∧ u < lo + d := fun u hu =>
    hin u (exitTimes_subset ts s.next_exit u hu)
  have hsp := spacedCount (Pool.exitTimes s.next_exit ts) lo (lo + d)
    (exitTimes_pairwise ts s.next_exit) hmem
  have hre := runExits_exited ts s
  have hlen :
      (Pool.exitTimes s.next_exit ts).length ≤ (d + IDLE_THRESHOLD - 1) / IDLE_THRESHOLD := by
    rw [Nat.le_div_iff_mul_le (by simp [IDLE_THRESHOLD])]
    simp only [IDLE_THRESHOLD] at hsp ⊢
    omega
  omega

/-- Witness for C6: three timeouts spaced one window apart inside a
601-second window produce exactly the permitted ceil(601/300) = 3
exits. -/
theorem C6_pool_exit_rate_witness :
    ({ next_exit := 0, exited := 0 } : ExitState).next_exit ≤ 0 ∧
    (Pool.tryExit { next_exit := 0, exited := 0 } 0).1.next_exit = 0 + IDLE_THRESHOLD ∧
    (Pool.runExits { next_exit := 0, exited := 0 } [300, 600, 900]).exited ≤
      ({ next_exit := 0, exited := 0 } : ExitState).exited +
        (601 + IDLE_THRESHOLD - 1) / IDLE_THRESHOLD := by
  obtain ⟨a, b, -, d⟩ :=
    C6_pool_exit_rate [300, 600, 900] 300 601 { next_exit := 0, exited := 0 } 0
      (by decide) (by decide)
  exact ⟨a, b, d⟩
